import Mathlib

/-
Verification of the IDTxl data-indexing and surrogate-generation core
(`idtxl/data.py`, class `Data`).

The embedding below translates the source into Lean:

* `NDArray` models a numpy array of rank at most 3: a shape list together
  with a total lookup function on index lists (entries outside the shape
  are junk and never relied upon).  `expandDims` models
  `np.expand_dims(data, data.ndim)` and `swapaxes` models
  `np.swapaxes`/`ndarray.swapaxes`.
* `Dim` models the axis symbols of a `dim_order` string ('p', 's', 'r').
* `reorder_data`, `set_data_sizes`, `set_data` model `Data._reorder_data`,
  `Data._set_data_size` and `Data.set_data` (the `normalise=False` storage
  path; `idtxl_utils.standardise` is not part of the sources and no claim
  below depends on it — the dimension counts are taken from the reordered
  array before normalisation in the source, and normalisation preserves
  the shape).
* `DataSet` models a `Data` object holding a canonical 3-axis array:
  a total value function over (process, sample, replication) plus the
  three stored counts.  `getData` models `Data._get_data`, parametrised
  by the replication traversal order (the source draws it with
  `np.random.permutation`; theorems quantify over the draw).
* `permute_samples` models `Data.permute_samples`, parametrised by the
  random permutations the source draws with `np.random.permutation`.

Machine integers do not overflow in the modelled code paths (numpy
float64 data is only moved, never combined arithmetically), so values
are embedded as `Int`.
-/

/-- Errors raised by the modelled code: `RuntimeError` for the
current-value precondition in `_get_data` (the source first prints the
index list and the current value, modelled as the payload), `IndexError`
re-raised in `_get_data` naming the variable and the data sizes,
`RuntimeError`s of `set_data`, the two `AssertionError`s validating
`perm_range` in `permute_samples`, and the `AttributeError` of the
`data` property setter. -/
inductive DataError where
  | outOfRange (idx_list : List (Nat × Nat)) (current_value : Nat × Nat)
  | indexError (idx : Nat × Nat) (n_processes n_samples : Nat)
  | dimOrderTooLong
  | dimOrderMismatch (ndim len : Nat)
  | permRangeTooSmall (perm_range : Nat)
  | permRangeTooLarge (n_per_repl perm_range : Nat)
  | attributeSetError
deriving DecidableEq

/-- Axis symbols of a `dim_order` string: process, sample, replication. -/
inductive Dim where
  | p
  | s
  | r
deriving DecidableEq

/-- Model of a numpy array of rank ≤ 3: its shape and a total lookup
function on index lists (indices beyond the shape are junk). -/
structure NDArray where
  shape : List Nat
  val : List Nat → Int

/-- Model of `np.expand_dims(data, data.ndim)`: append a trailing
singleton axis; lookups ignore the extra trailing index. -/
def NDArray.expandDims (a : NDArray) : NDArray :=
  { shape := a.shape ++ [1]
    val := fun ix => a.val (ix.take a.shape.length) }

/-- Swap the entries at positions `i` and `j` of a list (identity when
either position is out of range). -/
def swapList {α : Type} (l : List α) (i j : Nat) : List α :=
  match l.get? i, l.get? j with
  | some x, some y => (l.set i y).set j x
  | _, _ => l

/-- Model of `ndarray.swapaxes(i, j)`: swap two axes of the shape and of
every index list fed to the lookup. -/
def NDArray.swapaxes (a : NDArray) (i j : Nat) : NDArray :=
  { shape := swapList a.shape i j
    val := fun ix => a.val (swapList ix i j) }

/-- Modelled from the spec: `idtxl_utils.swap_chars` (module
`idtxl_utils` is not among the sources).  The spec states that a swap of
two axes corresponds to a swap of the same two symbols in the tracking
string. -/
def swap_chars (ord : List Dim) (i j : Nat) : List Dim :=
  swapList ord i j

/-- Model of the `missing_dims` computation in `Data._reorder_data`:
start from the string 'psr' and remove every character appearing in
`dim_order` (`str.replace` removes all occurrences). -/
def missingDims (dim_order : List Dim) : List Dim :=
  dim_order.foldl (fun acc d => acc.filter (fun x => x ≠ d)) [Dim.p, Dim.s, Dim.r]

/-- Model of the singleton-insertion loop of `Data._reorder_data`: for
each missing axis symbol, append a trailing singleton axis to the array
and the symbol to the order string. -/
def addMissing (a : NDArray) (dim_order : List Dim) : NDArray × List Dim :=
  (missingDims dim_order).foldl
    (fun st d => (st.1.expandDims, st.2 ++ [d])) (a, dim_order)

/-- Model of `Data._reorder_data`: insert singleton axes for missing
symbols, then move the process axis to position 0 and the sample axis to
position 1 (the replication axis settles at position 2). -/
def reorder_data (a : NDArray) (dim_order : List Dim) : NDArray :=
  let st := addMissing a dim_order
  let st2 :=
    if st.2.get? 0 ≠ some Dim.p then
      let ip := st.2.indexOf Dim.p
      (st.1.swapaxes 0 ip, swap_chars st.2 0 ip)
    else st
  if st2.2.get? 1 ≠ some Dim.s then
    st2.1.swapaxes 1 (st2.2.indexOf Dim.s)
  else st2.1

/-- Mutable state of a `Data` object: the optional stored array (absent
until the first `set_data`) and the three counts set by
`Data._set_data_size`. -/
structure DataState where
  stored : Option NDArray
  n_processes : Nat
  n_samples : Nat
  n_replications : Nat

/-- Model of the `data` property setter: assigning to `data` when an
array is already stored raises `AttributeError` telling the caller to
use `set_data`; before the first set it stores the value. -/
def data_setter (st : DataState) (d : NDArray) : Except DataError DataState :=
  match st.stored with
  | some _ => .error .attributeSetError
  | none => .ok { st with stored := some d }

/-- Model of `Data.set_data` (storage as in the `normalise=False` path;
the counts are set from the reordered array exactly as in the source,
where `_set_data_size` runs before normalisation). -/
def set_data (_st : DataState) (a : NDArray) (dim_order : List Dim) :
    Except DataError DataState :=
  if 3 < dim_order.length then .error .dimOrderTooLong
  else if dim_order.length ≠ a.shape.length then
    .error (.dimOrderMismatch a.shape.length dim_order.length)
  else
    let ordered := reorder_data a dim_order
    .ok { stored := some ordered
          n_processes := ordered.shape.getD 0 0
          n_samples := ordered.shape.getD 1 0
          n_replications := ordered.shape.getD 2 0 }

/-- Reference definition taken from the claim's words (not from the
source), for comparison with `set_data`: the size of the input array
along the axis declared with symbol `d`, or 1 when `d` is absent from
the order string. -/
def declaredAxisSize (a : NDArray) (dim_order : List Dim) (d : Dim) : Nat :=
  if d ∈ dim_order then a.shape.getD (dim_order.indexOf d) 1 else 1

/-- Model of a `Data` object holding a canonical 3-axis array: a total
value function over (process, sample, replication) and the stored
counts. -/
structure DataSet where
  val : Nat → Nat → Nat → Int
  n_processes : Nat
  n_samples : Nat
  n_replications : Nat

/-- View of a `DataState` holding a rank-3 stored array as a `DataSet`. -/
def DataState.toDataSet (st : DataState) (a : NDArray) : DataSet :=
  { val := fun p s r => a.val [p, s, r]
    n_processes := st.n_processes
    n_samples := st.n_samples
    n_replications := st.n_replications }

/-- Model of `Data.n_realisations_samples(current_value)`: number of
realisations over samples, `n_samples - current_value[1]`. -/
def n_realisations_samples (d : DataSet) (cv : Nat × Nat) : Nat :=
  d.n_samples - cv.2

/-- Model of `Data.n_realisations_repl()`. -/
def n_realisations_repl (d : DataSet) : Nat :=
  d.n_replications

/-- One output row of `_get_data`: for time step `u` of replication
`rep`, one column per variable `(proc, sample)` holding
`data[proc, sample + u, rep]` (the source copies the contiguous slice
`data[idx[0], idx[1] : idx[1] + n_real_time, replication]` into the
column, so row `u` of the block reads sample `idx[1] + u`). -/
def extractRow (d : DataSet) (idx_list : List (Nat × Nat)) (u rep : Nat) :
    List Int :=
  idx_list.map (fun v => d.val v.1 (v.2 + u) rep)

/-- Realisation matrix of `_get_data` as a list of rows: replications in
traversal order, each contributing `n` consecutive rows in time order. -/
def extractRows (d : DataSet) (idx_list : List (Nat × Nat)) (n : Nat)
    (order : List Nat) : List (List Int) :=
  order.flatMap (fun rep => (List.range n).map (fun u => extractRow d idx_list u rep))

/-- Model of `np.repeat(replications_order, n_real_time)`: the
replication index of each output row. -/
def repIndex (order : List Nat) (n : Nat) : List Nat :=
  order.flatMap (fun rep => List.replicate n rep)

/-- Model of `Data._get_data(idx_list, current_value, shuffle)`,
parametrised by the replication traversal order (`np.arange` when
`shuffle=False`, a drawn permutation when `shuffle=True`; both callers
pass orders whose entries are below `n_replications`, so the only
reachable `IndexError` of the retrieval loop is a process index out of
range, raised at the first offending variable).  The source first checks
that every variable's sample index is at most the current value's sample
index, printing the index list and the current value and raising
`RuntimeError` otherwise. -/
def getData (d : DataSet) (idx_list : List (Nat × Nat)) (cv : Nat × Nat)
    (order : List Nat) : Except DataError (List (List Int) × List Nat) :=
  if idx_list.all (fun v => v.2 ≤ cv.2) then
    match idx_list.find? (fun v => d.n_processes ≤ v.1) with
    | some v => .error (.indexError v d.n_processes d.n_samples)
    | none =>
        .ok (extractRows d idx_list (n_realisations_samples d cv) order,
             repIndex order (n_realisations_samples d cv))
  else .error (.outOfRange idx_list cv)

/-- Model of `Data.get_realisations(current_value, idx_list)`: `_get_data`
with `shuffle=False`, i.e. the natural replication order (the `TypeError`
branch is unrepresentable here since `idx_list` is a list by type). -/
def get_realisations (d : DataSet) (cv : Nat × Nat)
    (idx_list : List (Nat × Nat)) : Except DataError (List (List Int) × List Nat) :=
  getData d idx_list cv (List.range d.n_replications)

/-- Model of `Data.permute_replications(current_value, idx_list)`:
`_get_data` with `shuffle=True`, parametrised by the drawn permutation
`order` of `np.random.permutation(self.n_replications)`. -/
def permute_replications (d : DataSet) (cv : Nat × Nat)
    (idx_list : List (Nat × Nat)) (order : List Nat) :
    Except DataError (List (List Int) × List Nat) :=
  getData d idx_list cv order

/-- Model of the block-wise base permutation built in `permute_samples`
when `perm_range < n_per_repl`: full blocks of size `perm_range` receive
the independently drawn permutation `draws p` shifted by `p * perm_range`,
and a final remainder block of size `n_per_repl % perm_range` (when
non-empty) receives `draws (n_per_repl / perm_range)` shifted past the
full blocks. -/
def buildBlockPerm (n_per_repl perm_range : Nat) (draws : Nat → List Nat) :
    List Nat :=
  ((List.range (n_per_repl / perm_range)).flatMap
      (fun p => (draws p).map (fun x => x + p * perm_range)))
    ++ (if 0 < n_per_repl % perm_range then
          (draws (n_per_repl / perm_range)).map
            (fun x => x + (n_per_repl / perm_range) * perm_range)
        else [])

/-- Rows of `realisations` with replication index `rep`, in row order:
model of the boolean-mask selection `realisations[replication_idx ==
replication, :]`. -/
def maskSelect (ri : List Nat) (rows : List (List Int)) (rep : Nat) :
    List (List Int) :=
  ((ri.zip rows).filter (fun x => x.1 == rep)).map Prod.snd

/-- Model of the per-replication permutation loop of `permute_samples`:
`realisations_perm[mask, :] = realisations_perm[mask, :][perm, :]` for
each replication below `n_replications`.  Row position `k`, whose
replication index is `rep` and which is the `c`-th row of its
replication (`c` = occurrences of `rep` before position `k`), receives
the `perm[c]`-th row of its replication's block; rows whose replication
index is not visited by the loop keep their original content. -/
def permuteWithinRepl (rows : List (List Int)) (ri : List Nat) (nrepl : Nat)
    (perm : List Nat) : List (List Int) :=
  (List.range rows.length).map (fun k =>
    let rep := ri.getD k 0
    if rep < nrepl then
      (maskSelect ri rows rep).getD (perm.getD ((ri.take k).count rep) 0) []
    else rows.getD k [])

/-- Model of the `perm_idx` output of `permute_samples`: per row, the
permuted position `perm[c]` of that row within its replication (`np.empty`
junk, modelled as 0, at rows whose replication index is never visited). -/
def permIndexOut (nrows : Nat) (ri : List Nat) (nrepl : Nat)
    (perm : List Nat) : List Nat :=
  (List.range nrows).map (fun k =>
    let rep := ri.getD k 0
    if rep < nrepl then perm.getD ((ri.take k).count rep) 0 else 0)

/-- Effective permutation range: `perm_range='max'` (here `none`) means
the whole replication, `n_per_repl`; an integer stays itself. -/
def effPermRange (perm_range : Option Nat) (n_per_repl : Nat) : Nat :=
  perm_range.getD n_per_repl

/-- Model of the body of `Data.permute_samples(current_value, idx_list,
perm_range)` after the extraction step (`n_per_repl` onwards),
parametrised by the random draws of the source: `drawMax` is the
permutation drawn when the effective range equals `n_per_repl`, and
`draws` are the per-block permutations otherwise.  `perm_range = none`
models the string 'max' (any other string raises `ValueError` before the
asserts and is not modelled).  The asserts validating `perm_range`
become the two configuration errors. -/
def permute_samples_validated (d : DataSet) (realisations : List (List Int))
    (replication_idx : List Nat) (perm_range : Option Nat)
    (drawMax : List Nat) (draws : Nat → List Nat) :
    Except DataError (List (List Int) × List Nat) :=
  let n_per_repl := replication_idx.count 0
  match perm_range with
  | some b =>
      if b ≤ 1 then .error (.permRangeTooSmall b)
      else if n_per_repl < b then .error (.permRangeTooLarge n_per_repl b)
      else
        let perm := if b = n_per_repl then drawMax
                    else buildBlockPerm n_per_repl b draws
        .ok (permuteWithinRepl realisations replication_idx d.n_replications perm,
             permIndexOut realisations.length replication_idx d.n_replications perm)
  | none =>
      .ok (permuteWithinRepl realisations replication_idx d.n_replications drawMax,
           permIndexOut realisations.length replication_idx d.n_replications drawMax)

/-- Model of `Data.permute_samples`: obtain the un-shuffled realisations
via `get_realisations`, then validate `perm_range` and permute (the part
modelled by `permute_samples_validated` above). -/
def permute_samples (d : DataSet) (cv : Nat × Nat)
    (idx_list : List (Nat × Nat)) (perm_range : Option Nat)
    (drawMax : List Nat) (draws : Nat → List Nat) :
    Except DataError (List (List Int) × List Nat) :=
  match get_realisations d cv idx_list with
  | .error e => .error e
  | .ok (realisations, replication_idx) =>
      permute_samples_validated d realisations replication_idx perm_range
        drawMax draws

/-- Concrete dataset used by witnesses: the 2-process, 4-sample,
3-replication array of sequential integers of the spec's concrete
scenario, `np.arange(24).reshape(2, 4, 3)` in 'psr' order. -/
def seqArray : NDArray :=
  { shape := [2, 4, 3]
    val := fun ix => Int.ofNat (ix.getD 0 0 * 12 + ix.getD 1 0 * 3 + ix.getD 2 0) }

/-- Fresh `Data` object before the first `set_data`. -/
def emptyDataState : DataState :=
  { stored := none, n_processes := 0, n_samples := 0, n_replications := 0 }

/-- Data object state after `set_data` has stored the sequential 2×4×3
array; used by witnesses. -/
def storedState : DataState :=
  { stored := some seqArray, n_processes := 2, n_samples := 4, n_replications := 3 }

/-- View of `DataState.stored` as a `DataSet` when an array is stored. -/
def dataSetOfState (st : DataState) : Option DataSet :=
  st.stored.map (fun a => st.toDataSet a)

/-- Concrete dataset used by witnesses: sequential integers over 2
processes, 4 samples, 3 replications. -/
def wData : DataSet :=
  { val := fun p s r => Int.ofNat (p * 12 + s * 3 + r)
    n_processes := 2
    n_samples := 4
    n_replications := 3 }

/-- Concrete dataset for the counterexample: a single process, sample
and replication. -/
def cxData : DataSet :=
  { val := fun _ _ _ => 0
    n_processes := 1
    n_samples := 1
    n_replications := 1 }

theorem length_flatMap_uniform {α β : Type} {L : List α} {g : α → List β} {n : Nat}
    (h : ∀ x ∈ L, (g x).length = n) : (L.flatMap g).length = n * L.length := by
  induction L with
  | nil => simp
  | cons x xs ih =>
      rw [List.flatMap_cons, List.length_append, h x (List.mem_cons_self x xs),
        ih (fun y hy => h y (List.mem_cons_of_mem _ hy)), List.length_cons]
      ring

theorem getD_flatMap_uniform {α β : Type} {L : List α} {g : α → List β} {n : Nat}
    (h : ∀ x ∈ L, (g x).length = n) {k : Nat} (hk : k < n * L.length)
    (a₀ : α) (d : β) :
    (L.flatMap g).getD k d = (g (L.getD (k / n) a₀)).getD (k % n) d := by
  induction L generalizing k with
  | nil => simp at hk
  | cons x xs ih =>
      have hx : (g x).length = n := h x (List.mem_cons_self x xs)
      rw [List.flatMap_cons]
      rcases Nat.lt_or_ge k n with hkn | hkn
      · rw [List.getD_append _ _ _ _ (by omega), Nat.div_eq_of_lt hkn,
          Nat.mod_eq_of_lt hkn, List.getD_cons_zero]
      · obtain ⟨m, rfl⟩ : ∃ m, k = n + m := ⟨k - n, by omega⟩
        have hm : m < n * xs.length := by
          rw [List.length_cons, Nat.mul_succ] at hk
          omega
        rw [List.getD_append_right _ _ _ _ (by omega)]
        have h1 : (n + m) / n = m / n + 1 := by
          have hn : 0 < n := by
            rcases Nat.eq_zero_or_pos n with h0 | h0
            · subst h0; simp at hm
            · exact h0
          rw [Nat.add_comm n m, Nat.add_div_right _ hn]
        rw [h1, Nat.add_mod_left, List.getD_cons_succ, hx, Nat.add_sub_cancel_left]
        exact ih (fun y hy => h y (List.mem_cons_of_mem _ hy)) hm

theorem drop_take_flatMap_uniform {α β : Type} {L : List α} {g : α → List β} {n : Nat}
    (h : ∀ x ∈ L, (g x).length = n) {j : Nat} (hj : j < L.length) (a₀ : α) :
    ((L.flatMap g).drop (j * n)).take n = g (L.getD j a₀) := by
  induction L generalizing j with
  | nil => simp at hj
  | cons x xs ih =>
      have hx : (g x).length = n := h x (List.mem_cons_self x xs)
      rw [List.flatMap_cons]
      cases j with
      | zero =>
          rw [Nat.zero_mul, List.drop_zero, List.take_left' hx, List.getD_cons_zero]
      | succ j =>
          have hmul : (j + 1) * n = n + j * n := by ring
          rw [hmul, ← List.drop_drop, List.drop_left' hx, List.getD_cons_succ]
          exact ih (fun y hy => h y (List.mem_cons_of_mem _ hy))
            (by simpa using Nat.lt_of_succ_lt_succ (by simpa using hj))

theorem take_flatMap_uniform {α β : Type} {L : List α} {g : α → List β} {n : Nat}
    (h : ∀ x ∈ L, (g x).length = n) {k : Nat} (hk : k < n * L.length) (a₀ : α) :
    (L.flatMap g).take k =
      ((L.take (k / n)).flatMap g) ++ ((g (L.getD (k / n) a₀)).take (k % n)) := by
  induction L generalizing k with
  | nil => simp at hk
  | cons x xs ih =>
      have hx : (g x).length = n := h x (List.mem_cons_self x xs)
      have hn : 0 < n := by
        rcases Nat.eq_zero_or_pos n with h0 | h0
        · subst h0; simp at hk
        · exact h0
      rw [List.flatMap_cons]
      rcases Nat.lt_or_ge k n with hkn | hkn
      · rw [Nat.div_eq_of_lt hkn, Nat.mod_eq_of_lt hkn, List.take_zero,
          List.flatMap_nil, List.nil_append, List.getD_cons_zero,
          List.take_append_of_le_length (by omega)]
      · obtain ⟨m, rfl⟩ : ∃ m, k = n + m := ⟨k - n, by omega⟩
        have hm : m < n * xs.length := by
          rw [List.length_cons, Nat.mul_succ] at hk
          omega
        have h1 : (n + m) / n = m / n + 1 := by
          rw [Nat.add_comm n m, Nat.add_div_right _ hn]
        rw [h1, Nat.add_mod_left, List.take_succ_cons, List.getD_cons_succ,
          List.flatMap_cons, ← hx, List.take_append, hx,
          ih (fun y hy => h y (List.mem_cons_of_mem _ hy)) hm, List.append_assoc]

theorem count_repIndex (order : List Nat) (n r : Nat) :
    (repIndex order n).count r = n * order.count r := by
  induction order with
  | nil => simp [repIndex]
  | cons x xs ih =>
      rw [repIndex, List.flatMap_cons, List.count_append, List.count_cons,
        List.count_replicate]
      rw [repIndex] at ih
      rw [ih]
      by_cases hx : x = r
      · simp only [hx, beq_self_eq_true, if_true]
        rw [Nat.mul_succ]
        omega
      · simp [hx]

theorem map_getD_range {α : Type} (l : List α) (d : α) :
    (List.range l.length).map (fun i => l.getD i d) = l := by
  refine List.ext_getElem (by simp) (fun i h1 h2 => ?_)
  rw [List.getElem_map, List.getElem_range]
  exact List.getD_eq_getElem l d h2

theorem map_getD_range_comp {α β : Type} (l : List α) (d : α) (f : α → β) :
    (List.range l.length).map (fun i => f (l.getD i d)) = l.map f := by
  have h := congrArg (List.map f) (map_getD_range l d)
  rw [List.map_map] at h
  exact h

theorem zip_flatMap_uniform {α β γ : Type} {L : List α} {g : α → List β}
    {g2 : α → List γ} (h : ∀ x ∈ L, (g x).length = (g2 x).length) :
    (L.flatMap g).zip (L.flatMap g2) = L.flatMap (fun x => (g x).zip (g2 x)) := by
  induction L with
  | nil => simp
  | cons x xs ih =>
      rw [List.flatMap_cons, List.flatMap_cons, List.flatMap_cons,
        List.zip_append (h x (List.mem_cons_self x xs)),
        ih (fun y hy => h y (List.mem_cons_of_mem _ hy))]

theorem replicate_zip {α β : Type} (r : α) (l : List β) :
    (List.replicate l.length r).zip l = l.map (fun y => (r, y)) := by
  induction l with
  | nil => simp
  | cons y ys ih => rw [List.length_cons, List.replicate_succ, List.zip_cons_cons,
      List.map_cons, ih]

theorem filter_flatMap_comm {α β : Type} (L : List α) (g : α → List β) (p : β → Bool) :
    (L.flatMap g).filter p = L.flatMap (fun x => (g x).filter p) := by
  induction L with
  | nil => simp
  | cons x xs ih => rw [List.flatMap_cons, List.flatMap_cons, List.filter_append, ih]

theorem flatMap_if_nil {β : Type} {L : List Nat} {rep : Nat} (h : rep ∉ L)
    (g : Nat → List β) :
    (L.flatMap (fun x => if x = rep then g x else [])) = [] := by
  induction L with
  | nil => simp
  | cons x xs ih =>
      rw [List.flatMap_cons, if_neg (by rintro rfl; exact h (List.mem_cons_self x xs)),
        List.nil_append]
      exact ih (fun hx => h (List.mem_cons_of_mem _ hx))

theorem flatMap_range_if_eq {β : Type} {R rep : Nat} (hrep : rep < R)
    (g : Nat → List β) :
    ((List.range R).flatMap (fun x => if x = rep then g x else [])) = g rep := by
  induction R with
  | zero => omega
  | succ R ih =>
      rw [List.range_succ, List.flatMap_append, List.flatMap_cons, List.flatMap_nil,
        List.append_nil]
      rcases Nat.lt_or_ge rep R with hr | hr
      · rw [ih hr, if_neg (by omega), List.append_nil]
      · have hRr : R = rep := by omega
        rw [flatMap_if_nil (by simp [List.mem_range]; omega) g, List.nil_append,
          if_pos hRr, hRr]

theorem maskSelect_natural {g : Nat → List (List Int)} {R n : Nat}
    (hg : ∀ x ∈ List.range R, (g x).length = n) {rep : Nat} (hrep : rep < R) :
    maskSelect (repIndex (List.range R) n) ((List.range R).flatMap g) rep = g rep := by
  unfold maskSelect repIndex
  rw [zip_flatMap_uniform (by intro x hx; rw [List.length_replicate, hg x hx])]
  rw [filter_flatMap_comm]
  have hstep : ((List.range R).flatMap
      (fun x => ((List.replicate n x).zip (g x)).filter (fun q => q.1 == rep))) =
      ((List.range R).flatMap
      (fun x => if x = rep then ((g x).map (fun y => (x, y))) else [])) := by
    apply List.flatMap_congr
    intro x hx
    rw [← hg x hx, replicate_zip, List.filter_map]
    by_cases hxr : x = rep
    · subst hxr
      rw [if_pos rfl]
      congr 1
      apply List.filter_eq_self.mpr
      intro y _
      simp
    · rw [if_neg hxr]
      have : ((g x).filter ((fun q : Nat × List Int => q.1 == rep) ∘
          (fun y => (x, y)))) = [] := by
        apply List.filter_eq_nil_iff.mpr
        intro y _
        simp [hxr]
      rw [this, List.map_nil]
  rw [hstep, flatMap_range_if_eq hrep]
  rw [List.map_map]
  have : (Prod.snd ∘ fun y : List Int => (rep, y)) = id := rfl
  rw [this, List.map_id]

theorem count_take_repIndex {R n k : Nat} (hk : k < n * R) :
    ((repIndex (List.range R) n).take k).count (k / n) = k % n := by
  have hn : 0 < n := by
    rcases Nat.eq_zero_or_pos n with h0 | h0
    · subst h0; simp at hk
    · exact h0
  have hkR : k / n < R := by
    rw [Nat.div_lt_iff_lt_mul hn, Nat.mul_comm]
    exact hk
  unfold repIndex
  rw [take_flatMap_uniform (fun x _ => List.length_replicate _ _) (by simpa using hk) 0]
  rw [List.count_append]
  have h1 : ((List.take (k / n) (List.range R)).flatMap
      (fun rep => List.replicate n rep)).count (k / n) = 0 := by
    rw [List.take_range]
    have hmin : k / n ⊓ R = k / n := by omega
    rw [hmin]
    have := count_repIndex (List.range (k / n)) n (k / n)
    rw [repIndex] at this
    rw [this, List.count_eq_zero_of_not_mem (by simp), Nat.mul_zero]
  have h2 : (List.range R).getD (k / n) 0 = k / n := by
    rw [List.getD_eq_getElem _ _ (by simpa using hkR), List.getElem_range]
  rw [h1, h2, List.take_replicate, Nat.zero_add]
  have hmn : k % n ⊓ n = k % n := by
    have := Nat.mod_lt k hn
    omega
  rw [hmn, List.count_replicate, if_pos (beq_self_eq_true _)]

theorem repIndex_getD_natural {R n k : Nat} (hk : k < n * R) :
    (repIndex (List.range R) n).getD k 0 = k / n := by
  have hn : 0 < n := by
    rcases Nat.eq_zero_or_pos n with h0 | h0
    · subst h0; simp at hk
    · exact h0
  have hkR : k / n < R := by
    rw [Nat.div_lt_iff_lt_mul hn, Nat.mul_comm]
    exact hk
  unfold repIndex
  rw [getD_flatMap_uniform (fun x _ => List.length_replicate _ _)
    (by simpa using hk) 0 0]
  have h2 : (List.range R).getD (k / n) 0 = k / n := by
    rw [List.getD_eq_getElem _ _ (by simpa using hkR), List.getElem_range]
  rw [h2, List.getD_eq_getElem _ _ (by simp [Nat.mod_lt k hn]), List.getElem_replicate]

theorem permuteWithinRepl_natural {g : Nat → List (List Int)} {R n : Nat}
    (hg : ∀ x ∈ List.range R, (g x).length = n) {perm : List Nat}
    (hlen : perm.length = n) :
    permuteWithinRepl ((List.range R).flatMap g) (repIndex (List.range R) n) R perm
      = (List.range R).flatMap (fun rep => perm.map (fun j => (g rep).getD j [])) := by
  have hrows : ((List.range R).flatMap g).length = n * R := by
    rw [length_flatMap_uniform hg, List.length_range]
  have hrhslen : ∀ x ∈ List.range R,
      (perm.map (fun j => (g x).getD j [])).length = n := by
    intro x _
    rw [List.length_map, hlen]
  refine List.ext_getElem ?_ (fun k h1 h2 => ?_)
  · rw [length_flatMap_uniform hrhslen]
    unfold permuteWithinRepl
    rw [List.length_map, List.length_range, hrows, List.length_range]
  · have hk : k < n * R := by
      rw [length_flatMap_uniform hrhslen, List.length_range] at h2
      exact h2
    have hn : 0 < n := by
      rcases Nat.eq_zero_or_pos n with h0 | h0
      · subst h0; simp at hk
      · exact h0
    have hkR : k / n < R := by
      rw [Nat.div_lt_iff_lt_mul hn, Nat.mul_comm]
      exact hk
    unfold permuteWithinRepl
    rw [List.getElem_map, List.getElem_range]
    simp only []
    rw [repIndex_getD_natural hk, if_pos hkR, maskSelect_natural hg hkR,
      count_take_repIndex hk]
    have hrhs : ((List.range R).flatMap
        (fun rep => perm.map (fun j => (g rep).getD j []))).getD k [] =
        (g (k / n)).getD (perm.getD (k % n) 0) [] := by
      rw [getD_flatMap_uniform hrhslen (by simpa using hk) 0 []]
      have h2 : (List.range R).getD (k / n) 0 = k / n := by
        rw [List.getD_eq_getElem _ _ (by simpa using hkR), List.getElem_range]
      rw [h2]
      have hmod : k % n < perm.length := by
        rw [hlen]
        exact Nat.mod_lt k hn
      rw [List.getD_eq_getElem _ _ (by simpa using hmod), List.getElem_map,
        List.getD_eq_getElem _ _ hmod]
    rw [← List.getD_eq_getElem _ [] h2, hrhs]

theorem getData_ok (d : DataSet) (idx_list : List (Nat × Nat)) (cv : Nat × Nat)
    (order : List Nat)
    (hofs : ∀ v ∈ idx_list, v.2 ≤ cv.2)
    (hproc : ∀ v ∈ idx_list, v.1 < d.n_processes) :
    getData d idx_list cv order =
      .ok (extractRows d idx_list (n_realisations_samples d cv) order,
           repIndex order (n_realisations_samples d cv)) := by
  have h1 : idx_list.all (fun v => v.2 ≤ cv.2) = true := by
    rw [List.all_eq_true]
    intro v hv
    exact decide_eq_true (hofs v hv)
  have h2 : idx_list.find? (fun v => d.n_processes ≤ v.1) = none := by
    rw [List.find?_eq_none]
    intro v hv
    simp only [decide_eq_true_eq]
    exact Nat.not_le.mpr (hproc v hv)
  unfold getData
  rw [h1, h2]
  rfl

theorem buildBlockPerm_length {n b : Nat} (draws : Nat → List Nat)
    (hd : ∀ p < n / b, (draws p).length = b)
    (hrem : (draws (n / b)).length = n % b) :
    (buildBlockPerm n b draws).length = n := by
  have hlen1 : ∀ x ∈ List.range (n / b),
      ((draws x).map (fun y => y + x * b)).length = b := by
    intro x hx
    rw [List.length_map, hd x (List.mem_range.mp hx)]
  unfold buildBlockPerm
  rw [List.length_append, length_flatMap_uniform hlen1, List.length_range]
  by_cases hr : 0 < n % b
  · rw [if_pos hr, List.length_map, hrem, Nat.div_add_mod]
  · rw [if_neg hr, List.length_nil]
    have h0 : n % b = 0 := by omega
    have h2 := Nat.div_add_mod n b
    omega

theorem buildBlockPerm_getD {n b : Nat} (hb : 0 < b) (draws : Nat → List Nat)
    (hd : ∀ p < n / b, (draws p).Perm (List.range b))
    (hrem : (draws (n / b)).Perm (List.range (n % b)))
    {i : Nat} (hi : i < n) :
    (buildBlockPerm n b draws).getD i 0 / b = i / b := by
  have hdlen : ∀ p < n / b, (draws p).length = b := fun p hp =>
    (hd p hp).length_eq.trans (List.length_range b)
  have hremlen : (draws (n / b)).length = n % b :=
    hrem.length_eq.trans (List.length_range _)
  have hlen1 : ∀ x ∈ List.range (n / b),
      ((draws x).map (fun y => y + x * b)).length = b := by
    intro x hx
    rw [List.length_map, hdlen x (List.mem_range.mp hx)]
  have hleft : ((List.range (n / b)).flatMap
      (fun p => (draws p).map (fun y => y + p * b))).length = b * (n / b) := by
    rw [length_flatMap_uniform hlen1, List.length_range]
  unfold buildBlockPerm
  rcases Nat.lt_or_ge i (b * (n / b)) with hcase | hcase
  · rw [List.getD_append _ _ _ _ (by omega)]
    have hib : i / b < n / b := by
      rw [Nat.div_lt_iff_lt_mul hb, Nat.mul_comm]
      exact hcase
    rw [getD_flatMap_uniform hlen1 (by simpa using hcase) 0 0]
    have hr : (List.range (n / b)).getD (i / b) 0 = i / b := by
      rw [List.getD_eq_getElem _ _ (by simpa using hib), List.getElem_range]
    rw [hr]
    have hmod : i % b < (draws (i / b)).length := by
      rw [hdlen _ hib]
      exact Nat.mod_lt i hb
    rw [List.getD_eq_getElem _ _ (by simpa using hmod), List.getElem_map]
    have hxb : (draws (i / b))[i % b] < b :=
      List.mem_range.mp ((hd _ hib).mem_iff.mp (List.getElem_mem hmod))
    rw [Nat.mul_comm (i / b) b, Nat.add_mul_div_left _ _ hb,
      Nat.div_eq_of_lt hxb, Nat.zero_add]
  · have hrpos : 0 < n % b := by
      have := Nat.div_add_mod n b
      omega
    rw [List.getD_append_right _ _ _ _ (by omega), hleft, if_pos hrpos]
    have hmlt : i - b * (n / b) < n % b := by
      have := Nat.div_add_mod n b
      omega
    have hmlen : i - b * (n / b) < (draws (n / b)).length := by
      rw [hremlen]
      exact hmlt
    rw [List.getD_eq_getElem _ _ (by simpa using hmlen), List.getElem_map]
    have hxr : (draws (n / b))[i - b * (n / b)] < n % b :=
      List.mem_range.mp (hrem.mem_iff.mp (List.getElem_mem hmlen))
    have hxb : (draws (n / b))[i - b * (n / b)] < b :=
      lt_of_lt_of_le hxr (le_of_lt (Nat.mod_lt n hb))
    rw [Nat.mul_comm (n / b) b, Nat.add_mul_div_left _ _ hb,
      Nat.div_eq_of_lt hxb, Nat.zero_add]
    have hieq : i = b * (n / b) + (i - b * (n / b)) := by omega
    rw [hieq, Nat.mul_add_div hb,
      Nat.div_eq_of_lt (lt_of_lt_of_le hmlt (le_of_lt (Nat.mod_lt n hb))),
      Nat.add_zero]

theorem flatMap_perm_of_forall {α β : Type} {L : List α} {g g2 : α → List β}
    (h : ∀ x ∈ L, (g x).Perm (g2 x)) : (L.flatMap g).Perm (L.flatMap g2) := by
  induction L with
  | nil => simp
  | cons x xs ih =>
      rw [List.flatMap_cons, List.flatMap_cons]
      exact (h x (List.mem_cons_self x xs)).append
        (ih (fun y hy => h y (List.mem_cons_of_mem _ hy)))

theorem range_flatMap_blocks (q b : Nat) :
    ((List.range q).flatMap (fun p => (List.range b).map (fun x => x + p * b))) =
      List.range' 0 (q * b) := by
  induction q with
  | zero => simp
  | succ q ih =>
      rw [List.range_succ, List.flatMap_append, ih, List.flatMap_cons,
        List.flatMap_nil, List.append_nil]
      have hmap : (List.range b).map (fun x => x + q * b) = List.range' (q * b) b := by
        rw [List.range_eq_range']
        have hcomm : (List.range' 0 b).map (fun x => x + q * b) =
            (List.range' 0 b).map (fun x => q * b + x) := by
          apply List.map_congr_left
          intro x _
          omega
        rw [hcomm, List.map_add_range', Nat.add_zero]
      rw [hmap]
      have happ := List.range'_append 0 (q * b) b 1
      simp only [Nat.one_mul, Nat.zero_add] at happ
      rw [happ]
      congr 1
      ring

theorem buildBlockPerm_perm {n b : Nat} (draws : Nat → List Nat)
    (hd : ∀ p < n / b, (draws p).Perm (List.range b))
    (hrem : (draws (n / b)).Perm (List.range (n % b))) :
    (buildBlockPerm n b draws).Perm (List.range n) := by
  unfold buildBlockPerm
  have h1 : ((List.range (n / b)).flatMap
      (fun p => (draws p).map (fun x => x + p * b))).Perm
      ((List.range (n / b)).flatMap
      (fun p => (List.range b).map (fun x => x + p * b))) :=
    flatMap_perm_of_forall (fun p hp => ((hd p (List.mem_range.mp hp)).map _))
  have h2 : ((if 0 < n % b then
        (draws (n / b)).map (fun x => x + (n / b) * b) else []) : List Nat).Perm
      ((List.range (n % b)).map (fun x => x + (n / b) * b)) := by
    by_cases hr : 0 < n % b
    · rw [if_pos hr]
      exact hrem.map _
    · rw [if_neg hr]
      have h0 : n % b = 0 := by omega
      rw [h0, List.range_zero, List.map_nil]
  refine (h1.append h2).trans ?_
  rw [range_flatMap_blocks]
  have hmap : (List.range (n % b)).map (fun x => x + (n / b) * b) =
      List.range' ((n / b) * b) (n % b) := by
    rw [List.range_eq_range']
    have hcomm : (List.range' 0 (n % b)).map (fun x => x + (n / b) * b) =
        (List.range' 0 (n % b)).map (fun x => (n / b) * b + x) := by
      apply List.map_congr_left
      intro x _
      omega
    rw [hcomm, List.map_add_range', Nat.add_zero]
  rw [hmap]
  have happ := List.range'_append 0 ((n / b) * b) (n % b) 1
  simp only [Nat.one_mul, Nat.zero_add] at happ
  rw [happ]
  have hn : n % b + (n / b) * b = n := by
    rw [Nat.mul_comm]
    exact Nat.mod_add_div n b
  rw [hn, List.range_eq_range']

theorem map_const_eq_replicate {α β : Type} (l : List α) (c : β) :
    l.map (fun _ => c) = List.replicate l.length c := by
  induction l with
  | nil => rfl
  | cons x xs ih => rw [List.map_cons, ih, List.length_cons, List.replicate_succ]

theorem flatMap_const_replicate {α β : Type} (L : List α) (n : Nat) (c : β) :
    L.flatMap (fun _ => List.replicate n c) = List.replicate (n * L.length) c := by
  induction L with
  | nil => simp
  | cons x xs ih =>
      rw [List.flatMap_cons, ih, List.length_cons, Nat.mul_succ,
        Nat.add_comm (n * xs.length) n, List.replicate_add]

/-- C1 (amended): for every Dataset with `S` samples and `R`
replications, every current value `(p, t)` with `t ≤ S`, and every
non-empty variable list whose sample offsets are all `≤ t` and whose
process indices are all below `n_processes`, `get_realisations` returns
a realisation matrix with exactly `(S − t) · R` rows and one column per
variable, together with a replication-index vector of the same row
count.  (The process-bound condition is forced by the counterexample
`claim1_counterexample`: the source raises `IndexError` for a variable
naming a process the data does not have.) -/
theorem claim1_realisation_count (d : DataSet) (cv : Nat × Nat)
    (idx_list : List (Nat × Nat))
    (_hne : idx_list ≠ [])
    (hofs : ∀ v ∈ idx_list, v.2 ≤ cv.2)
    (hproc : ∀ v ∈ idx_list, v.1 < d.n_processes)
    (_ht : cv.2 ≤ d.n_samples) :
    ∃ rows ri, get_realisations d cv idx_list = .ok (rows, ri) ∧
      rows.length = (d.n_samples - cv.2) * d.n_replications ∧
      (∀ row ∈ rows, row.length = idx_list.length) ∧
      ri.length = (d.n_samples - cv.2) * d.n_replications := by
  refine ⟨_, _, getData_ok d idx_list cv (List.range d.n_replications) hofs hproc,
    ?_, ?_, ?_⟩
  · unfold extractRows
    rw [length_flatMap_uniform (n := n_realisations_samples d cv)
      (fun x _ => by rw [List.length_map, List.length_range]), List.length_range]
    rfl
  · intro row hrow
    unfold extractRows at hrow
    rw [List.mem_flatMap] at hrow
    obtain ⟨rep, _, hrow⟩ := hrow
    rw [List.mem_map] at hrow
    obtain ⟨u, _, rfl⟩ := hrow
    unfold extractRow
    rw [List.length_map]
  · unfold repIndex
    rw [length_flatMap_uniform (fun x _ => List.length_replicate _ _),
      List.length_range]
    rfl

/-- C1 counterexample: the claim as stated quantifies over every
non-empty variable list whose sample offsets are `≤ t`, but the source
raises `IndexError` (no matrix is returned) when a variable names a
process outside the data: variable list `[(1, 0)]` against a dataset
with a single process. -/
theorem claim1_counterexample :
    ¬ ∃ rows ri, get_realisations cxData (0, 0) [(1, 0)] = .ok (rows, ri) := by
  rintro ⟨rows, ri, h⟩
  rw [show get_realisations cxData (0, 0) [(1, 0)] =
      .error (.indexError (1, 0) 1 1) from rfl] at h
  exact Except.noConfusion h

/-- C1 witness: the amended theorem applied to the sequential 2×4×3
dataset, current value `(0, 2)` and variable list `[(0,0), (1,2)]`. -/
theorem claim1_witness :
    ∃ rows ri, get_realisations wData (0, 2) [(0, 0), (1, 2)] = .ok (rows, ri) ∧
      rows.length = (wData.n_samples - 2) * wData.n_replications ∧
      (∀ row ∈ rows, row.length = 2) ∧
      ri.length = (wData.n_samples - 2) * wData.n_replications :=
  claim1_realisation_count wData (0, 2) [(0, 0), (1, 2)] (by decide) (by decide)
    (by decide) (by decide)

/-- C4: a variable list containing a variable whose sample offset
exceeds the current value's sample offset makes `get_realisations` and
`permute_replications` fail with the out-of-range error carrying the
offending index list and the current value; no extraction is performed
(the operations are pure and return only the error, so the stored array
and the counts of the dataset are untouched). -/
theorem claim4_out_of_range_rejection (d : DataSet) (cv : Nat × Nat)
    (idx_list : List (Nat × Nat)) (order : List Nat)
    (hbad : ∃ v ∈ idx_list, cv.2 < v.2) :
    get_realisations d cv idx_list = .error (.outOfRange idx_list cv) ∧
    permute_replications d cv idx_list order = .error (.outOfRange idx_list cv) := by
  obtain ⟨v, hv, hlt⟩ := hbad
  have hall : idx_list.all (fun w => w.2 ≤ cv.2) = false := by
    rcases Bool.eq_false_or_eq_true (idx_list.all (fun w => w.2 ≤ cv.2)) with hb | hb
    · rw [List.all_eq_true] at hb
      exact absurd (of_decide_eq_true (hb v hv)) (Nat.not_le.mpr hlt)
    · exact hb
  constructor
  · unfold get_realisations getData
    rw [hall]
    rfl
  · unfold permute_replications getData
    rw [hall]
    rfl

/-- C4 witness: variable `(0, 2)` against current value `(0, 1)` on the
sequential 2×4×3 dataset. -/
theorem claim4_witness :
    get_realisations wData (0, 1) [(0, 2)] = .error (.outOfRange [(0, 2)] (0, 1)) ∧
    permute_replications wData (0, 1) [(0, 2)] [2, 0, 1] =
      .error (.outOfRange [(0, 2)] (0, 1)) :=
  claim4_out_of_range_rejection wData (0, 1) [(0, 2)] [2, 0, 1]
    ⟨(0, 2), by decide, by decide⟩

/-- C9: on a dataset that already holds a stored array, assigning to the
`data` attribute directly raises the `AttributeError` telling the caller
to use `set_data`; no new state is produced, so the stored array is
unchanged and `set_data` remains the only operation replacing stored
data. -/
theorem claim9_direct_assignment_rejected (st : DataState) (a : NDArray)
    (hstored : st.stored = some a) (v : NDArray) :
    data_setter st v = .error .attributeSetError := by
  unfold data_setter
  rw [hstored]

/-- C9 witness: the setter applied to a state holding the sequential
2×4×3 array. -/
theorem claim9_witness :
    data_setter storedState seqArray = .error .attributeSetError :=
  claim9_direct_assignment_rejected storedState seqArray rfl seqArray

/-- C10: `get_realisations` with the empty variable list succeeds (the
precondition check holds vacuously and the retrieval loop body never
runs): it returns `(S − t) · R` rows of zero columns and the natural
replication-index vector, each replication index repeated `S − t` times
consecutively in ascending order. -/
theorem claim10_empty_variable_list (d : DataSet) (cv : Nat × Nat)
    (_ht : cv.2 ≤ d.n_samples) :
    get_realisations d cv [] =
      .ok (List.replicate ((d.n_samples - cv.2) * d.n_replications) [],
        (List.range d.n_replications).flatMap
          (fun rep => List.replicate (d.n_samples - cv.2) rep)) := by
  unfold get_realisations
  rw [getData_ok d [] cv (List.range d.n_replications) (by simp) (by simp)]
  have hrows : extractRows d [] (n_realisations_samples d cv)
      (List.range d.n_replications) =
      List.replicate ((d.n_samples - cv.2) * d.n_replications) [] := by
    unfold extractRows
    have hstep : (List.range d.n_replications).flatMap
        (fun rep => (List.range (n_realisations_samples d cv)).map
          (fun u => extractRow d [] u rep)) =
        (List.range d.n_replications).flatMap
        (fun _ => List.replicate (n_realisations_samples d cv) ([] : List Int)) := by
      apply List.flatMap_congr
      intro x _
      rw [show (fun u => extractRow d [] u x) = (fun _ : Nat => ([] : List Int))
        from rfl, map_const_eq_replicate, List.length_range]
    rw [hstep, flatMap_const_replicate, List.length_range]
    rfl
  rw [hrows]
  rfl

/-- C10 witness: the empty variable list against the sequential 2×4×3
dataset at current value `(0, 2)`. -/
theorem claim10_witness :
    get_realisations wData (0, 2) [] =
      .ok ([[], [], [], [], [], []], [0, 0, 1, 1, 2, 2]) := by
  rw [claim10_empty_variable_list wData (0, 2) (by decide)]
  rfl

theorem count_range_eq_one {r R : Nat} (hr : r < R) : (List.range R).count r = 1 := by
  induction R with
  | zero => omega
  | succ R ih =>
      rw [List.range_succ, List.count_append, List.count_cons, List.count_nil,
        Nat.zero_add]
      rcases Nat.lt_or_ge r R with h | h
      · rw [ih h, if_neg (by simp only [beq_iff_eq]; omega)]
      · have hrR : r = R := by omega
        rw [List.count_eq_zero_of_not_mem (by simp only [List.mem_range]; omega),
          if_pos (by simp [hrR]), Nat.zero_add]

/-- C2: `permute_replications` with a drawn replication order `order`
(a permutation of `0 .. R-1`) returns a block permutation of the rows of
`get_realisations`: block `j` (the `j`-th group of `S − t` consecutive
rows) equals the `get_realisations` block of replication `order[j]` with
its internal time order unchanged; the replication-index vector lists
`order[j]` repeated `S − t` times for each `j`, and every replication
index `r < R` occurs exactly `S − t` times in it. -/
theorem claim2_replication_blocks (d : DataSet) (cv : Nat × Nat)
    (idx_list : List (Nat × Nat)) (order : List Nat)
    (hperm : order.Perm (List.range d.n_replications))
    (hofs : ∀ v ∈ idx_list, v.2 ≤ cv.2)
    (hproc : ∀ v ∈ idx_list, v.1 < d.n_processes)
    (_ht : cv.2 ≤ d.n_samples)
    (j r : Nat) (hj : j < d.n_replications) (hr : r < d.n_replications) :
    ∃ rows ri rows0 ri0,
      permute_replications d cv idx_list order = .ok (rows, ri) ∧
      get_realisations d cv idx_list = .ok (rows0, ri0) ∧
      (rows.drop (j * (d.n_samples - cv.2))).take (d.n_samples - cv.2) =
        (rows0.drop ((order.getD j 0) * (d.n_samples - cv.2))).take
          (d.n_samples - cv.2) ∧
      ri = order.flatMap (fun rep => List.replicate (d.n_samples - cv.2) rep) ∧
      ri.count r = d.n_samples - cv.2 := by
  have hlen : order.length = d.n_replications := by
    rw [hperm.length_eq, List.length_range]
  refine ⟨_, _, _, _, getData_ok d idx_list cv order hofs hproc,
    getData_ok d idx_list cv (List.range d.n_replications) hofs hproc,
    ?_, ?_, ?_⟩
  · rw [show d.n_samples - cv.2 = n_realisations_samples d cv from rfl]
    have hblock1 : ((extractRows d idx_list (n_realisations_samples d cv)
        order).drop (j * n_realisations_samples d cv)).take
        (n_realisations_samples d cv) =
        (List.range (n_realisations_samples d cv)).map
          (fun u => extractRow d idx_list u (order.getD j 0)) := by
      unfold extractRows
      exact drop_take_flatMap_uniform
        (fun x _ => by rw [List.length_map, List.length_range])
        (by rw [hlen]; exact hj) 0
    have hk : order.getD j 0 < d.n_replications := by
      have hmem : order.getD j 0 ∈ order := by
        rw [List.getD_eq_getElem _ _ (by rw [hlen]; exact hj)]
        exact List.getElem_mem _
      exact List.mem_range.mp (hperm.mem_iff.mp hmem)
    have hblock2 : ((extractRows d idx_list (n_realisations_samples d cv)
        (List.range d.n_replications)).drop
        ((order.getD j 0) * n_realisations_samples d cv)).take
        (n_realisations_samples d cv) =
        (List.range (n_realisations_samples d cv)).map
          (fun u => extractRow d idx_list u
            ((List.range d.n_replications).getD (order.getD j 0) 0)) := by
      unfold extractRows
      exact drop_take_flatMap_uniform
        (fun x _ => by rw [List.length_map, List.length_range])
        (by rw [List.length_range]; exact hk) 0
    have hgr : (List.range d.n_replications).getD (order.getD j 0) 0 =
        order.getD j 0 := by
      rw [List.getD_eq_getElem _ _ (by rw [List.length_range]; exact hk),
        List.getElem_range]
    rw [hblock1, hblock2, hgr]
  · rfl
  · rw [show (repIndex order (n_realisations_samples d cv)).count r =
      n_realisations_samples d cv * order.count r from count_repIndex order _ r,
      hperm.count_eq r, count_range_eq_one hr, Nat.mul_one]
    rfl

/-- C2 witness: the sequential 2×4×3 dataset with current value `(1, 2)`,
variables `[(1,0), (0,2)]` and drawn order `[2, 0, 1]`, checked at block
`j = 1` and replication index `r = 2`. -/
theorem claim2_witness :
    ∃ rows ri rows0 ri0,
      permute_replications wData (1, 2) [(1, 0), (0, 2)] [2, 0, 1] = .ok (rows, ri) ∧
      get_realisations wData (1, 2) [(1, 0), (0, 2)] = .ok (rows0, ri0) ∧
      (rows.drop (1 * (wData.n_samples - 2))).take (wData.n_samples - 2) =
        (rows0.drop (([2, 0, 1].getD 1 0) * (wData.n_samples - 2))).take
          (wData.n_samples - 2) ∧
      ri = [2, 0, 1].flatMap (fun rep => List.replicate (wData.n_samples - 2) rep) ∧
      ri.count 2 = wData.n_samples - 2 :=
  claim2_replication_blocks wData (1, 2) [(1, 0), (0, 2)] [2, 0, 1] (by decide)
    (by decide) (by decide) (by decide) 1 2 (by decide) (by decide)

theorem permute_samples_validated_some (d : DataSet) (rows : List (List Int))
    (ri : List Nat) (b : Nat) (dm : List Nat) (dr : Nat → List Nat) :
    permute_samples_validated d rows ri (some b) dm dr =
      if b ≤ 1 then .error (.permRangeTooSmall b)
      else if ri.count 0 < b then .error (.permRangeTooLarge (ri.count 0) b)
      else .ok (permuteWithinRepl rows ri d.n_replications
          (if b = ri.count 0 then dm else buildBlockPerm (ri.count 0) b dr),
        permIndexOut rows.length ri d.n_replications
          (if b = ri.count 0 then dm else buildBlockPerm (ri.count 0) b dr)) := rfl

theorem permute_samples_validated_none (d : DataSet) (rows : List (List Int))
    (ri : List Nat) (dm : List Nat) (dr : Nat → List Nat) :
    permute_samples_validated d rows ri none dm dr =
      .ok (permuteWithinRepl rows ri d.n_replications dm,
        permIndexOut rows.length ri d.n_replications dm) := rfl

theorem natural_repIndex_count_zero (d : DataSet) (cv : Nat × Nat)
    (hR : 0 < d.n_replications) :
    (repIndex (List.range d.n_replications) (n_realisations_samples d cv)).count 0 =
      d.n_samples - cv.2 := by
  rw [count_repIndex, count_range_eq_one hR, Nat.mul_one]
  rfl

/-- C8: on a valid extraction with `R ≥ 1` replications, `permute_samples`
rejects an invalid permutation range with a configuration error and
returns no permuted realisations: an integer `perm_range` of 1 or less
fails the nothing-to-permute assertion, and an integer `perm_range`
strictly greater than `n_per_repl = S − t` fails the
not-enough-realisations assertion. -/
theorem claim8_perm_range_validation (d : DataSet) (cv : Nat × Nat)
    (idx_list : List (Nat × Nat)) (drawMax : List Nat) (draws : Nat → List Nat)
    (b1 b2 : Nat)
    (hofs : ∀ v ∈ idx_list, v.2 ≤ cv.2)
    (hproc : ∀ v ∈ idx_list, v.1 < d.n_processes)
    (_ht : cv.2 ≤ d.n_samples) (hR : 0 < d.n_replications)
    (hb1 : b1 ≤ 1) (hb2 : 2 ≤ b2) (hlarge : d.n_samples - cv.2 < b2) :
    permute_samples d cv idx_list (some b1) drawMax draws =
      .error (.permRangeTooSmall b1) ∧
    permute_samples d cv idx_list (some b2) drawMax draws =
      .error (.permRangeTooLarge (d.n_samples - cv.2) b2) := by
  have hok := getData_ok d idx_list cv (List.range d.n_replications) hofs hproc
  have hcount := natural_repIndex_count_zero d cv hR
  constructor
  · unfold permute_samples get_realisations
    rw [hok]
    refine (permute_samples_validated_some d _ _ b1 drawMax draws).trans ?_
    rw [if_pos hb1]
  · unfold permute_samples get_realisations
    rw [hok]
    refine (permute_samples_validated_some d _ _ b2 drawMax draws).trans ?_
    rw [hcount, if_neg (by omega), if_pos hlarge]

/-- C8 witness: the sequential 2×4×3 dataset at current value `(0, 2)`
(two realisations per replication): `perm_range = 1` fails as too small
and `perm_range = 3` fails as too large. -/
theorem claim8_witness :
    permute_samples wData (0, 2) [(0, 0)] (some 1) [1, 0] (fun x => [x]) =
      .error (.permRangeTooSmall 1) ∧
    permute_samples wData (0, 2) [(0, 0)] (some 3) [1, 0] (fun x => [x]) =
      .error (.permRangeTooLarge (wData.n_samples - 2) 3) :=
  claim8_perm_range_validation wData (0, 2) [(0, 0)] [1, 0] (fun x => [x]) 1 3
    (by decide) (by decide) (by decide) (by decide) (by decide) (by decide)
    (by decide)

theorem maskSelect_permuted_col_perm {g : Nat → List (List Int)} {R n : Nat}
    (hg : ∀ x ∈ List.range R, (g x).length = n) {perm : List Nat}
    (hperm : perm.Perm (List.range n)) {rep : Nat} (hrep : rep < R) (j : Nat) :
    ((maskSelect (repIndex (List.range R) n)
        (permuteWithinRepl ((List.range R).flatMap g)
          (repIndex (List.range R) n) R perm) rep).map
      (fun row => row.getD j 0)).Perm
      ((maskSelect (repIndex (List.range R) n)
        ((List.range R).flatMap g) rep).map (fun row => row.getD j 0)) := by
  have hlen : perm.length = n := hperm.length_eq.trans (List.length_range n)
  rw [permuteWithinRepl_natural hg hlen,
    maskSelect_natural (g := fun x => perm.map (fun i => (g x).getD i []))
      (fun x _ => by rw [List.length_map, hlen]) hrep,
    maskSelect_natural hg hrep, List.map_map]
  refine (hperm.map ((fun row : List Int => row.getD j 0) ∘
    (fun i => (g rep).getD i []))).trans ?_
  have hglen := hg rep (List.mem_range.mpr hrep)
  have heq : (List.range n).map ((fun row : List Int => row.getD j 0) ∘
      (fun i => (g rep).getD i [])) =
      (g rep).map (fun row => row.getD j 0) := by
    rw [← hglen]
    exact map_getD_range_comp (g rep) [] (fun row => row.getD j 0)
  rw [heq]

/-- C7: a call to `permute_samples` with an integer `perm_range = b`
satisfying `2 ≤ b < n_per_repl` (with `n_per_repl = S − t`) builds its
base permutation with `buildBlockPerm` and applies it to every
replication; that permutation has length `n_per_repl`, is a permutation
of `0 .. n_per_repl - 1`, and maps every row position `i` into its own
consecutive block: the image's block number `perm[i] / b` equals `i / b`,
for full blocks as well as for the final shorter remainder block of size
`n_per_repl % b`, so no row position crosses a block boundary. -/
theorem claim7_block_structure (d : DataSet) (cv : Nat × Nat)
    (idx_list : List (Nat × Nat)) (b : Nat) (drawMax : List Nat)
    (draws : Nat → List Nat) (i : Nat)
    (hofs : ∀ v ∈ idx_list, v.2 ≤ cv.2)
    (hproc : ∀ v ∈ idx_list, v.1 < d.n_processes)
    (_ht : cv.2 ≤ d.n_samples) (hR : 0 < d.n_replications)
    (hb2 : 2 ≤ b) (hbn : b < d.n_samples - cv.2)
    (hd : ∀ p < (d.n_samples - cv.2) / b, (draws p).Perm (List.range b))
    (hrem : (draws ((d.n_samples - cv.2) / b)).Perm
      (List.range ((d.n_samples - cv.2) % b)))
    (hi : i < d.n_samples - cv.2) :
    ∃ rows ri, get_realisations d cv idx_list = .ok (rows, ri) ∧
      permute_samples d cv idx_list (some b) drawMax draws =
        .ok (permuteWithinRepl rows ri d.n_replications
            (buildBlockPerm (d.n_samples - cv.2) b draws),
          permIndexOut rows.length ri d.n_replications
            (buildBlockPerm (d.n_samples - cv.2) b draws)) ∧
      (buildBlockPerm (d.n_samples - cv.2) b draws).length =
        d.n_samples - cv.2 ∧
      (buildBlockPerm (d.n_samples - cv.2) b draws).Perm
        (List.range (d.n_samples - cv.2)) ∧
      (buildBlockPerm (d.n_samples - cv.2) b draws).getD i 0 / b = i / b := by
  have hok := getData_ok d idx_list cv (List.range d.n_replications) hofs hproc
  have hcount := natural_repIndex_count_zero d cv hR
  have hb0 : 0 < b := by omega
  refine ⟨_, _, hok, ?_, ?_, ?_, ?_⟩
  · unfold permute_samples get_realisations
    rw [hok]
    refine (permute_samples_validated_some d _ _ b drawMax draws).trans ?_
    rw [hcount, if_neg (by omega), if_neg (by omega), if_neg (by omega)]
  · exact buildBlockPerm_length draws
      (fun p hp => (hd p hp).length_eq.trans (List.length_range b))
      (hrem.length_eq.trans (List.length_range _))
  · exact buildBlockPerm_perm draws hd hrem
  · exact buildBlockPerm_getD hb0 draws hd hrem hi

/-- C7 witness: the sequential 2×4×3 dataset at current value `(0, 1)`
(three realisations per replication) with `perm_range = 2`: one full
block `[0, 2)` and a remainder block `{2}`; checked at position `i = 2`. -/
theorem claim7_witness :
    ∃ rows ri, get_realisations wData (0, 1) [(1, 1)] = .ok (rows, ri) ∧
      permute_samples wData (0, 1) [(1, 1)] (some 2) [0, 1, 2]
          (fun p => if p = 0 then [1, 0] else [0]) =
        .ok (permuteWithinRepl rows ri wData.n_replications
            (buildBlockPerm (wData.n_samples - 1) 2
              (fun p => if p = 0 then [1, 0] else [0])),
          permIndexOut rows.length ri wData.n_replications
            (buildBlockPerm (wData.n_samples - 1) 2
              (fun p => if p = 0 then [1, 0] else [0]))) ∧
      (buildBlockPerm (wData.n_samples - 1) 2
        (fun p => if p = 0 then [1, 0] else [0])).length = wData.n_samples - 1 ∧
      (buildBlockPerm (wData.n_samples - 1) 2
        (fun p => if p = 0 then [1, 0] else [0])).Perm
        (List.range (wData.n_samples - 1)) ∧
      (buildBlockPerm (wData.n_samples - 1) 2
        (fun p => if p = 0 then [1, 0] else [0])).getD 2 0 / 2 = 2 / 2 :=
  claim7_block_structure wData (0, 1) [(1, 1)] 2 [0, 1, 2]
    (fun p => if p = 0 then [1, 0] else [0]) 2 (by decide) (by decide)
    (by decide) (by decide) (by decide) (by decide) (by decide) (by decide)
    (by decide)

/-- C3: for every valid call to `permute_samples` (valid extraction, at
least one replication, a `perm_range` that passes validation, and
well-formed random draws), for every replication `rep < R` and every
variable column `j`, the multiset of values of the permuted matrix at
the rows whose replication index is `rep` equals the multiset of values
of the unpermuted matrix at the same rows and column: the operation only
reorders rows within each replication and never invents, drops or
duplicates values. -/
theorem claim3_multiset_preservation (d : DataSet) (cv : Nat × Nat)
    (idx_list : List (Nat × Nat)) (pr : Option Nat)
    (drawMax : List Nat) (draws : Nat → List Nat)
    (hofs : ∀ v ∈ idx_list, v.2 ≤ cv.2)
    (hproc : ∀ v ∈ idx_list, v.1 < d.n_processes)
    (_ht : cv.2 ≤ d.n_samples) (hR : 0 < d.n_replications)
    (hpr : ∀ x, pr = some x → 2 ≤ x ∧ x ≤ d.n_samples - cv.2)
    (hMax : drawMax.Perm (List.range (d.n_samples - cv.2)))
    (hd : ∀ p < (d.n_samples - cv.2) / effPermRange pr (d.n_samples - cv.2),
      (draws p).Perm (List.range (effPermRange pr (d.n_samples - cv.2))))
    (hrem : (draws ((d.n_samples - cv.2) /
        effPermRange pr (d.n_samples - cv.2))).Perm
      (List.range ((d.n_samples - cv.2) % effPermRange pr (d.n_samples - cv.2))))
    (rep : Nat) (hrep : rep < d.n_replications) (j : Nat) :
    ∃ out pidx rows ri,
      permute_samples d cv idx_list pr drawMax draws = .ok (out, pidx) ∧
      get_realisations d cv idx_list = .ok (rows, ri) ∧
      ((maskSelect ri out rep).map (fun row => row.getD j 0)).Perm
        ((maskSelect ri rows rep).map (fun row => row.getD j 0)) := by
  have hok := getData_ok d idx_list cv (List.range d.n_replications) hofs hproc
  have hcount := natural_repIndex_count_zero d cv hR
  have hglen : ∀ x ∈ List.range d.n_replications,
      ((List.range (n_realisations_samples d cv)).map
        (fun u => extractRow d idx_list u x)).length =
        n_realisations_samples d cv := by
    intro x _
    rw [List.length_map, List.length_range]
  set rows := extractRows d idx_list (n_realisations_samples d cv)
    (List.range d.n_replications) with hrowsdef
  set ri := repIndex (List.range d.n_replications)
    (n_realisations_samples d cv) with hridef
  cases pr with
  | none =>
      have heq : permute_samples d cv idx_list none drawMax draws =
          .ok (permuteWithinRepl rows ri d.n_replications drawMax,
            permIndexOut rows.length ri d.n_replications drawMax) := by
        unfold permute_samples get_realisations
        rw [hok]
        exact permute_samples_validated_none d _ _ drawMax draws
      exact ⟨_, _, _, _, heq, hok, maskSelect_permuted_col_perm
        (g := fun x => (List.range (n_realisations_samples d cv)).map
          (fun u => extractRow d idx_list u x)) hglen hMax hrep j⟩
  | some b =>
      obtain ⟨hb2, hbn⟩ := hpr b rfl
      by_cases hbeq : b = d.n_samples - cv.2
      · have heq : permute_samples d cv idx_list (some b) drawMax draws =
            .ok (permuteWithinRepl rows ri d.n_replications drawMax,
              permIndexOut rows.length ri d.n_replications drawMax) := by
          unfold permute_samples get_realisations
          rw [hok]
          refine (permute_samples_validated_some d _ _ b drawMax draws).trans ?_
          rw [hcount, if_neg (by omega), if_neg (by omega), if_pos hbeq]
        exact ⟨_, _, _, _, heq, hok, maskSelect_permuted_col_perm
          (g := fun x => (List.range (n_realisations_samples d cv)).map
            (fun u => extractRow d idx_list u x)) hglen hMax hrep j⟩
      · have heq : permute_samples d cv idx_list (some b) drawMax draws =
            .ok (permuteWithinRepl rows ri d.n_replications
                (buildBlockPerm (d.n_samples - cv.2) b draws),
              permIndexOut rows.length ri d.n_replications
                (buildBlockPerm (d.n_samples - cv.2) b draws)) := by
          unfold permute_samples get_realisations
          rw [hok]
          refine (permute_samples_validated_some d _ _ b drawMax draws).trans ?_
          rw [hcount, if_neg (by omega), if_neg (by omega), if_neg hbeq]
        have hperm : (buildBlockPerm (d.n_samples - cv.2) b draws).Perm
            (List.range (d.n_samples - cv.2)) :=
          buildBlockPerm_perm (n := d.n_samples - cv.2) (b := b) draws hd hrem
        exact ⟨_, _, _, _, heq, hok, maskSelect_permuted_col_perm
          (g := fun x => (List.range (n_realisations_samples d cv)).map
            (fun u => extractRow d idx_list u x)) hglen hperm hrep j⟩

/-- C3 witness: the sequential 2×4×3 dataset at current value `(0, 1)`
(three realisations per replication), `perm_range = 2` (block branch),
checked at replication 1 and column 0. -/
theorem claim3_witness :
    ∃ out pidx rows ri,
      permute_samples wData (0, 1) [(0, 0), (1, 1)] (some 2) [2, 1, 0]
          (fun p => if p = 0 then [1, 0] else [0]) = .ok (out, pidx) ∧
      get_realisations wData (0, 1) [(0, 0), (1, 1)] = .ok (rows, ri) ∧
      ((maskSelect ri out 1).map (fun row => row.getD 0 0)).Perm
        ((maskSelect ri rows 1).map (fun row => row.getD 0 0)) :=
  claim3_multiset_preservation wData (0, 1) [(0, 0), (1, 1)] (some 2) [2, 1, 0]
    (fun p => if p = 0 then [1, 0] else [0]) (by decide) (by decide) (by decide)
    (by decide)
    (by intro x hx; injection hx with h; subst h; exact ⟨by decide, by decide⟩)
    (by decide) (by decide) (by decide) 1 (by decide) 0

/-- C5: for every array of rank 1–3 and every valid axis-order list
describing it (distinct symbols, length equal to the rank), `set_data`
succeeds and the stored `n_processes`, `n_samples` and `n_replications`
equal the input array's sizes along the axes declared 'p', 's' and 'r'
respectively, with count 1 for each symbol absent from the order
(`declaredAxisSize` is the claim's reference reading). -/
theorem claim5_canonical_counts (a : NDArray) (dim_order : List Dim)
    (st : DataState)
    (hlen : dim_order.length = a.shape.length)
    (hr1 : 1 ≤ dim_order.length) (hr3 : dim_order.length ≤ 3)
    (hnodup : dim_order.Nodup) :
    ∃ st2, set_data st a dim_order = .ok st2 ∧
      st2.n_processes = declaredAxisSize a dim_order Dim.p ∧
      st2.n_samples = declaredAxisSize a dim_order Dim.s ∧
      st2.n_replications = declaredAxisSize a dim_order Dim.r := by
  obtain ⟨shape, val⟩ := a
  rcases dim_order with _ | ⟨d1, dtl⟩
  · simp at hr1
  rcases dtl with _ | ⟨d2, dtl2⟩
  · rcases shape with _ | ⟨x, _ | ⟨y, stl2⟩⟩
    · simp at hlen
    · cases d1 <;> exact ⟨_, rfl, rfl, rfl, rfl⟩
    · simp at hlen
  rcases dtl2 with _ | ⟨d3, dtl3⟩
  · rcases shape with _ | ⟨x, _ | ⟨y, _ | ⟨z, stl3⟩⟩⟩
    · simp at hlen
    · simp at hlen
    · cases d1 <;> cases d2 <;> first
        | exact absurd hnodup (by decide)
        | exact ⟨_, rfl, rfl, rfl, rfl⟩
    · simp at hlen
  rcases dtl3 with _ | ⟨d4, dtl4⟩
  · rcases shape with _ | ⟨x, _ | ⟨y, _ | ⟨z, _ | ⟨w, stl4⟩⟩⟩⟩
    · simp at hlen
    · simp at hlen
    · simp at hlen
    · cases d1 <;> cases d2 <;> cases d3 <;> first
        | exact absurd hnodup (by decide)
        | exact ⟨_, rfl, rfl, rfl, rfl⟩
    · simp at hlen
  · simp only [List.length_cons] at hr3
    omega

/-- C5 witness: a 4×3 array declared with order "sr" (samples,
replications): after `set_data` the counts are 1 process, 4 samples, 3
replications, matching the declared axis sizes. -/
theorem claim5_witness :
    ∃ st2, set_data emptyDataState { shape := [4, 3], val := fun _ => 0 }
        [Dim.s, Dim.r] = .ok st2 ∧
      st2.n_processes =
        declaredAxisSize { shape := [4, 3], val := fun _ => 0 } [Dim.s, Dim.r] Dim.p ∧
      st2.n_samples =
        declaredAxisSize { shape := [4, 3], val := fun _ => 0 } [Dim.s, Dim.r] Dim.s ∧
      st2.n_replications =
        declaredAxisSize { shape := [4, 3], val := fun _ => 0 } [Dim.s, Dim.r] Dim.r :=
  claim5_canonical_counts { shape := [4, 3], val := fun _ => 0 } [Dim.s, Dim.r]
    emptyDataState (by decide) (by decide) (by decide) (by decide)

/-- C6: the spec's concrete scenario.  Setting the sequential 2×4×3
'psr' array (without normalisation, as in the repository's own test of
`get_realisations`), current value `(1, 3)` and variable list
`[(1,0), (1,1), (1,2)]` yields a 3×3 matrix whose rows correspond, in
order, to replications 0, 1, 2 and whose entry in row `r2`, column `j2`
equals the input array value at `[1, j2, r2]`. -/
theorem claim6_concrete_scenario :
    ∃ st, set_data emptyDataState seqArray [Dim.p, Dim.s, Dim.r] = .ok st ∧
      ∃ ds, dataSetOfState st = some ds ∧
        get_realisations ds (1, 3) [(1, 0), (1, 1), (1, 2)] =
          .ok ([[12, 15, 18], [13, 16, 19], [14, 17, 20]], [0, 1, 2]) ∧
        ∀ r2 < 3, ∀ j2 < 3,
          (([[12, 15, 18], [13, 16, 19], [14, 17, 20]] :
              List (List Int)).getD r2 []).getD j2 0 =
            seqArray.val [1, j2, r2] := by
  refine ⟨_, rfl, _, rfl, ?_, ?_⟩
  · rfl
  · decide
